import Mathlib

/-!
# Verification of the HavenoUtils unit-conversion core

Shallow embedding of the currency unit-conversion functions of
`src/utils/HavenoUtils.ts` (class `HavenoUtils`):

* `divideBI`, `xmrToAtomicUnits`, `atomicUnitsToXmr`, and the constant
  `AU_PER_XMR = 10^12`.

Modelling conventions:

* JavaScript `bigint` values are modelled as `Int` (arbitrary precision in
  both).  JS `bigint` division `/` truncates toward zero and `%` takes the
  sign of the dividend, so they are modelled by `Int.tdiv` and `Int.tmod`.
  Division of a `bigint` by `0n` throws a `RangeError`; the spec calls this
  error kind `DivisionByZero`.
* JavaScript strings are modelled as `List Char`.
* JavaScript `number` values are IEEE-754 binary64 doubles.  Two readings
  are provided.  `flQ : ℚ → ℚ` is the value of the double nearest its
  argument (53-bit significand, round to nearest, ties to even; valid on
  the normal finite range, which covers every value arising below), so
  `atomicUnitsToXmrFP` rounds after each `Number(...)` conversion and each
  floating operation exactly as the program does, while `atomicUnitsToXmr`
  is the exact-rational reading of the same expression (no rounding).
* `Math.pow(10, n)` overflows to `Infinity` for `n ≥ 309` (whereupon
  `BigInt(Infinity)` throws a `RangeError`); for `n ≤ 308` it is modelled
  as the double nearest `10^n` (`flNat`), which is exactly `10^n` for
  `n ≤ 22`.  (ECMA-262 leaves `Math.pow` implementation-approximated; the
  correctly-rounded value is used here.)
* `BigInt(string)` (JS `StringToBigInt`) maps the empty string to `0n`, an
  optional sign followed by a nonempty run of decimal digits to the signed
  value, and anything else to a thrown `SyntaxError` (modelled as `none`;
  non-decimal prefixes such as `0x` and whitespace trimming are irrelevant
  to the amounts considered here and are not modelled).
* The dynamic `typeof` dispatch on the argument of `xmrToAtomicUnits` is
  modelled by a sum type `JSValue` of the runtime shapes the function
  distinguishes; a JS `number` is carried as the string produced by its
  number-to-string coercion, which is the only use the function makes of it.
-/

namespace HavenoUtils

/-- Error kinds, following the spec's taxonomy (§7): `invalidAmountFormat`
for the explicit `throw new Error("Must provide XMR amount as a string or js
number ...")`, `numericParseError` for the engine SyntaxError thrown by `BigInt(string)`
on malformed digit strings, `divisionByZero` for the `RangeError` thrown by
bigint division by `0n`, and `rangeError` for the `RangeError` thrown by
`BigInt(x)` on a non-integral double such as `Infinity`. -/
inductive ConvError where
  | invalidAmountFormat
  | numericParseError
  | divisionByZero
  | rangeError
deriving DecidableEq, Repr

/-- The runtime shapes distinguished by the `typeof` dispatch in
`xmrToAtomicUnits`.  A `num` carries the decimal string produced by JS
number-to-string coercion (`"" + amountXmr`), the only way the function
consumes a number. -/
inductive JSValue where
  | str (s : List Char)
  | num (s : List Char)
  | nullV
  | undefinedV
  | boolV (b : Bool)
  | obj
  | bigintV (v : Int)
deriving DecidableEq, Repr

/-- `typeof v === "string" || typeof v === "number"`. -/
def isStringOrNumber : JSValue → Bool
  | .str _ => true
  | .num _ => true
  | _ => false

/-- `HavenoUtils.AU_PER_XMR = 1000000000000n`. -/
def AU_PER_XMR : Int := 1000000000000

/-- The numeric value of a decimal digit character. -/
def digitToNat (c : Char) : Nat := c.toNat - 48

/-- The value of a run of decimal digit characters, most significant first
(the value `BigInt` assigns to an unsigned decimal digit string). -/
def digitsToNat (l : List Char) : Nat :=
  l.foldl (fun acc c => acc * 10 + digitToNat c) 0

/-- An unsigned decimal digit run: `BigInt` accepts exactly a nonempty
all-digit string here. -/
def jsParseUnsigned (l : List Char) : Option Nat :=
  if l ≠ [] ∧ l.all Char.isDigit then some (digitsToNat l) else none

/-- JS `StringToBigInt`: the empty string is `0n`; otherwise an optional
sign followed by a nonempty decimal digit run; anything else throws
`SyntaxError` (`none`). -/
def jsStringToBigInt (l : List Char) : Option Int :=
  if l = [] then some 0
  else if l.head? = some '-' then (jsParseUnsigned l.tail).map (fun n => -(n : Int))
  else if l.head? = some '+' then (jsParseUnsigned l.tail).map (fun n => (n : Int))
  else (jsParseUnsigned l).map (fun n => (n : Int))

/-- JS `String.prototype.indexOf` for a single character: index of the first
occurrence, or `-1` (modelled as `none`). -/
def jsIndexOf (c : Char) : List Char → Option Nat
  | [] => none
  | x :: xs => if x = c then some 0 else (jsIndexOf c xs).map (· + 1)

/-- Fuel-driven helper for `natLog2` (structural recursion so that concrete
values reduce). -/
def log2Aux : Nat → Nat → Nat
  | 0, _ => 0
  | fuel + 1, n => if n < 2 then 0 else log2Aux fuel (n / 2) + 1

/-- `⌊log₂ n⌋` for `n ≥ 1` (and `0` at `0`). -/
def natLog2 (n : Nat) : Nat := log2Aux n n

/-- `⌈log₂ m⌉` for `m ≥ 1` (and `0` at `0`). -/
def natCeilLog2 (m : Nat) : Nat := if m ≤ 1 then 0 else natLog2 (m - 1) + 1

/-- Round the fraction `n / d` (with `d ≠ 0`) to the nearest integer,
ties to even — the IEEE-754 default rounding. -/
def roundRatHalfEven (n d : Nat) : Nat :=
  let q := n / d
  let r := n % d
  if 2 * r < d then q
  else if d < 2 * r then q + 1
  else if q % 2 = 0 then q else q + 1

/-- The integer value of the IEEE binary64 double nearest a natural number
(53-bit significand, round to nearest, ties to even).  Exact below `2^53`;
above, the number is rounded at the scale `2^(⌊log₂ N⌋ - 52)`. -/
def flNat (N : Nat) : Nat :=
  if N < 2 ^ 53 then N
  else
    let e := natLog2 N - 52
    roundRatHalfEven N (2 ^ e) * 2 ^ e

/-- `BigInt(Math.pow(10, n))`: for `n ≤ 308` the power is a finite double
— the double nearest `10^n`, always integer-valued, accepted by `BigInt` —
and for `n ≥ 309` it is `Infinity`, on which `BigInt` throws a
`RangeError` (`none`). -/
def jsPow10 (n : Nat) : Option Int :=
  if n ≤ 308 then some ((flNat (10 ^ n) : Int)) else none

/-- Mantissa and exponent of the IEEE binary64 double nearest the positive
rational `n / d`: the exponent `e` places `n / d / 2^e` in `[2^52, 2^53)`
and the mantissa is that scaled value rounded to the nearest integer, ties
to even. -/
def flPosParts (n d : Nat) : Nat × Int :=
  let e : Int :=
    (if d ≤ n then (natLog2 (n / d) : Int)
     else -(natCeilLog2 ((d + n - 1) / n) : Int)) - 52
  let m : Nat :=
    if 0 ≤ e then roundRatHalfEven n (d * 2 ^ e.toNat)
    else roundRatHalfEven (n * 2 ^ (-e).toNat) d
  (m, e)

/-- The value of the IEEE binary64 double nearest a rational (round to
nearest, ties to even), for arguments in the normal finite range — every
`Number(...)` conversion and floating-point operation result appearing in
this development lies well inside it. -/
def flQ (q : ℚ) : ℚ :=
  if q = 0 then 0
  else
    let p := flPosParts q.num.natAbs q.den
    (if q < 0 then -1 else 1) * ((p.1 : ℚ) * (2 : ℚ) ^ p.2)

/-- The string-processing body of `HavenoUtils.xmrToAtomicUnits`, reached
after the argument has been coerced to a string:

```
let decimalDivisor = 1;
let decimalIdx = amountXmr.indexOf('.');
if (decimalIdx > -1) {
  decimalDivisor = Math.pow(10, amountXmr.length - decimalIdx - 1);
  amountXmr = amountXmr.slice(0, decimalIdx) + amountXmr.slice(decimalIdx + 1);
}
return BigInt(amountXmr) * BigInt(HavenoUtils.AU_PER_XMR) / BigInt(decimalDivisor);
```

`BigInt(amountXmr)` is evaluated before `BigInt(decimalDivisor)`, so a
malformed digit string throws its SyntaxError before an overflowed divisor
throws its RangeError. -/
def xmrToAtomicUnitsStr (s : List Char) : Except ConvError Int :=
  let decimalIdx := jsIndexOf '.' s
  let decimalDivisor : Option Int :=
    match decimalIdx with
    | none => some 1
    | some i => jsPow10 (s.length - i - 1)
  let spliced : List Char :=
    match decimalIdx with
    | none => s
    | some i => s.take i ++ s.drop (i + 1)
  match jsStringToBigInt spliced with
  | none => .error .numericParseError
  | some v =>
    match decimalDivisor with
    | none => .error .rangeError
    | some dv => .ok (Int.tdiv (v * AU_PER_XMR) dv)

/-- `HavenoUtils.xmrToAtomicUnits`: a number is coerced to its string form,
a string is processed directly, and any other runtime type throws
`new Error("Must provide XMR amount as a string or js number ...")`
(the spec's `InvalidAmountFormat`). -/
def xmrToAtomicUnits : JSValue → Except ConvError Int
  | .str s => xmrToAtomicUnitsStr s
  | .num s => xmrToAtomicUnitsStr s
  | _ => .error .invalidAmountFormat

/-- `HavenoUtils.atomicUnitsToXmr` on a bigint argument:

```
const quotient: bigint = amountAtomicUnits / HavenoUtils.AU_PER_XMR;
const remainder: bigint = amountAtomicUnits % HavenoUtils.AU_PER_XMR;
return Number(quotient) + Number(remainder) / Number(HavenoUtils.AU_PER_XMR);
```

Here the returned JS `number` is read as the exact rational value of this
expression (no floating-point rounding); `atomicUnitsToXmrFP` is the same
computation with the IEEE binary64 rounding of every conversion and
operation made explicit. -/
def atomicUnitsToXmr (amountAtomicUnits : Int) : ℚ :=
  let quotient : Int := Int.tdiv amountAtomicUnits AU_PER_XMR
  let remainder : Int := Int.tmod amountAtomicUnits AU_PER_XMR
  (quotient : ℚ) + (remainder : ℚ) / (AU_PER_XMR : ℚ)

/-- `HavenoUtils.atomicUnitsToXmr` with the IEEE binary64 semantics of the
JS `number` arithmetic made explicit: each `Number(...)` conversion rounds
to the nearest double, and the floating division and addition each round
their exact result to the nearest double (ties to even). -/
def atomicUnitsToXmrFP (amountAtomicUnits : Int) : ℚ :=
  let quotient : Int := Int.tdiv amountAtomicUnits AU_PER_XMR
  let remainder : Int := Int.tmod amountAtomicUnits AU_PER_XMR
  flQ (flQ (quotient : ℚ) +
    flQ (flQ (remainder : ℚ) / flQ ((AU_PER_XMR : Int) : ℚ)))

/-- `HavenoUtils.divideBI`: `Number(a * 100n / b) / 100`; bigint division by
`0n` throws a `RangeError` (the spec's `DivisionByZero`). -/
def divideBI (a b : Int) : Except ConvError ℚ :=
  if b = 0 then .error .divisionByZero
  else .ok ((Int.tdiv (a * 100) b : ℚ) / 100)

/-- Modelled from the spec: `convert_centineros_to_atomic` is the fourth
pure conversion function of the core (§4, §6), absent from the `src/`
snapshot of `HavenoUtils.ts`; per §4.1 it is the pure scalar multiply
`result = centineros * CENTINEROS_MULTIPLIER` with
`CENTINEROS_MULTIPLIER = 10_000`. -/
def centinerosToAtomicUnits (centineros : Int) : Int :=
  centineros * 10000

/-- The exact rational value denoted by the decimal string with integer
digits `ip` and fractional digits `fr`. -/
def decValue (ip fr : List Char) : ℚ :=
  (digitsToNat ip : ℚ) + (digitsToNat fr : ℚ) / 10 ^ fr.length

/-! ## Parsing lemmas -/

theorem digitsToNat_foldl (n : Nat) (l : List Char) :
    l.foldl (fun acc c => acc * 10 + digitToNat c) n =
      n * 10 ^ l.length + digitsToNat l := by
  induction l generalizing n with
  | nil => simp [digitsToNat]
  | cons c cs ih =>
    have hc : digitsToNat (c :: cs) = digitToNat c * 10 ^ cs.length + digitsToNat cs := by
      have := ih (digitToNat c)
      simpa [digitsToNat] using this
    simp only [List.foldl_cons, List.length_cons, hc, ih (n * 10 + digitToNat c)]
    ring

theorem digitsToNat_append (a b : List Char) :
    digitsToNat (a ++ b) = digitsToNat a * 10 ^ b.length + digitsToNat b := by
  unfold digitsToNat
  rw [List.foldl_append]
  exact digitsToNat_foldl _ b

theorem jsParseUnsigned_digits (l : List Char) (hne : l ≠ [])
    (h : ∀ c ∈ l, c.isDigit) : jsParseUnsigned l = some (digitsToNat l) := by
  unfold jsParseUnsigned
  rw [if_pos ⟨hne, List.all_eq_true.2 h⟩]

theorem isDigit_ne_dash {c : Char} (h : c.isDigit) : c ≠ '-' := by
  intro hc; subst hc; exact absurd h (by decide)

theorem isDigit_ne_plus {c : Char} (h : c.isDigit) : c ≠ '+' := by
  intro hc; subst hc; exact absurd h (by decide)

theorem isDigit_ne_dot {c : Char} (h : c.isDigit) : c ≠ '.' := by
  intro hc; subst hc; exact absurd h (by decide)

theorem jsStringToBigInt_digits (l : List Char) (hne : l ≠ [])
    (h : ∀ c ∈ l, c.isDigit) :
    jsStringToBigInt l = some ((digitsToNat l : Int)) := by
  match l with
  | [] => exact absurd rfl hne
  | c :: cs =>
    have hc : c.isDigit := h c (List.mem_cons_self c cs)
    unfold jsStringToBigInt
    rw [if_neg (by simp), if_neg (by simp [isDigit_ne_dash hc]),
      if_neg (by simp [isDigit_ne_plus hc]),
      jsParseUnsigned_digits (c :: cs) hne h]
    rfl

theorem jsStringToBigInt_neg_digits (l : List Char) (hne : l ≠ [])
    (h : ∀ c ∈ l, c.isDigit) :
    jsStringToBigInt ('-' :: l) = some (-(digitsToNat l : Int)) := by
  unfold jsStringToBigInt
  rw [if_neg (by simp), if_pos (by simp), List.tail_cons,
    jsParseUnsigned_digits l hne h]
  rfl

theorem jsIndexOf_not_mem {c : Char} {l : List Char} (h : ∀ x ∈ l, x ≠ c) :
    jsIndexOf c l = none := by
  induction l with
  | nil => rfl
  | cons x xs ih =>
    unfold jsIndexOf
    rw [if_neg (h x (List.mem_cons_self x xs)),
      ih (fun y hy => h y (List.mem_cons_of_mem x hy))]
    rfl

theorem jsIndexOf_first_dot (ip fr : List Char) (hip : ∀ c ∈ ip, c ≠ '.') :
    jsIndexOf '.' (ip ++ '.' :: fr) = some ip.length := by
  induction ip with
  | nil => simp [jsIndexOf]
  | cons x xs ih =>
    have hx : x ≠ '.' := hip x (List.mem_cons_self x xs)
    have ihs := ih (fun y hy => hip y (List.mem_cons_of_mem x hy))
    simp only [List.cons_append, jsIndexOf, if_neg hx, List.append_eq, ihs,
      Option.map_some', List.length_cons]

/-! ## Computation lemmas for `xmrToAtomicUnitsStr` -/

/-- On a string made of an integer digit run, a decimal point and a
fractional digit run, `xmrToAtomicUnitsStr` multiplies the concatenated
digit value by `10^12` and truncating-divides by whatever integer
`BigInt(Math.pow(10, fracLen))` produces. -/
theorem xmrToAtomicUnitsStr_dot (ip fr : List Char) (d : Int)
    (hip : ∀ c ∈ ip, c.isDigit) (hfr : ∀ c ∈ fr, c.isDigit)
    (hne : ip ++ fr ≠ []) (hd : jsPow10 fr.length = some d) :
    xmrToAtomicUnitsStr (ip ++ '.' :: fr) =
      .ok (Int.tdiv ((digitsToNat (ip ++ fr) : Int) * AU_PER_XMR) d) := by
  have hidx : jsIndexOf '.' (ip ++ '.' :: fr) = some ip.length :=
    jsIndexOf_first_dot ip fr (fun c hc => isDigit_ne_dot (hip c hc))
  have htake : (ip ++ '.' :: fr).take ip.length = ip := List.take_left ip _
  have hdrop : (ip ++ '.' :: fr).drop (ip.length + 1) = fr := by
    have : (ip ++ ['.']) ++ fr = ip ++ '.' :: fr := by simp
    rw [← this]
    exact List.drop_left' (by simp)
  have hlen : (ip ++ '.' :: fr).length - ip.length - 1 = fr.length := by
    simp only [List.length_append, List.length_cons]
    omega
  have hdig : ∀ c ∈ ip ++ fr, c.isDigit := by
    intro c hc
    rcases List.mem_append.1 hc with h | h
    · exact hip c h
    · exact hfr c h
  unfold xmrToAtomicUnitsStr
  rw [hidx]
  simp only [htake, hdrop, hlen, hd,
    jsStringToBigInt_digits (ip ++ fr) hne hdig]

/-- With more than 308 fractional digits `Math.pow(10, fracLen)` is
`Infinity` and `BigInt(Infinity)` throws: the conversion fails. -/
theorem xmrToAtomicUnitsStr_dot_overflow (ip fr : List Char)
    (hip : ∀ c ∈ ip, c.isDigit) (hfr : ∀ c ∈ fr, c.isDigit)
    (hne : ip ++ fr ≠ []) (hd : jsPow10 fr.length = none) :
    xmrToAtomicUnitsStr (ip ++ '.' :: fr) = .error .rangeError := by
  have hidx : jsIndexOf '.' (ip ++ '.' :: fr) = some ip.length :=
    jsIndexOf_first_dot ip fr (fun c hc => isDigit_ne_dot (hip c hc))
  have htake : (ip ++ '.' :: fr).take ip.length = ip := List.take_left ip _
  have hdrop : (ip ++ '.' :: fr).drop (ip.length + 1) = fr := by
    have : (ip ++ ['.']) ++ fr = ip ++ '.' :: fr := by simp
    rw [← this]
    exact List.drop_left' (by simp)
  have hlen : (ip ++ '.' :: fr).length - ip.length - 1 = fr.length := by
    simp only [List.length_append, List.length_cons]
    omega
  have hdig : ∀ c ∈ ip ++ fr, c.isDigit := by
    intro c hc
    rcases List.mem_append.1 hc with h | h
    · exact hip c h
    · exact hfr c h
  unfold xmrToAtomicUnitsStr
  rw [hidx]
  simp only [htake, hdrop, hlen, hd,
    jsStringToBigInt_digits (ip ++ fr) hne hdig]

/-- On a plain digit run (no decimal point) the divisor is `1`. -/
theorem xmrToAtomicUnitsStr_int (ip : List Char)
    (hip : ∀ c ∈ ip, c.isDigit) (hne : ip ≠ []) :
    xmrToAtomicUnitsStr ip = .ok ((digitsToNat ip : Int) * AU_PER_XMR) := by
  have hidx : jsIndexOf '.' ip = none :=
    jsIndexOf_not_mem (fun c hc => isDigit_ne_dot (hip c hc))
  unfold xmrToAtomicUnitsStr
  rw [hidx]
  simp only [jsStringToBigInt_digits ip hne hip, Int.tdiv_one]

/-- Negative input with a decimal point: the leading `'-'` survives the
splice and the parsed value is negated. -/
theorem xmrToAtomicUnitsStr_neg_dot (ip fr : List Char) (d : Int)
    (hip : ∀ c ∈ ip, c.isDigit) (hfr : ∀ c ∈ fr, c.isDigit)
    (hne : ip ++ fr ≠ []) (hd : jsPow10 fr.length = some d) :
    xmrToAtomicUnitsStr ('-' :: (ip ++ '.' :: fr)) =
      .ok (Int.tdiv (-(digitsToNat (ip ++ fr) : Int) * AU_PER_XMR) d) := by
  have hidx0 : jsIndexOf '.' (ip ++ '.' :: fr) = some ip.length :=
    jsIndexOf_first_dot ip fr (fun c hc => isDigit_ne_dot (hip c hc))
  have hidx : jsIndexOf '.' ('-' :: (ip ++ '.' :: fr)) = some (ip.length + 1) := by
    unfold jsIndexOf
    rw [if_neg (by decide), hidx0]
    rfl
  have htake : ('-' :: (ip ++ '.' :: fr)).take (ip.length + 1) = '-' :: ip := by
    simp only [List.take_succ_cons, List.take_left ip]
  have hdrop : ('-' :: (ip ++ '.' :: fr)).drop (ip.length + 1 + 1) = fr := by
    rw [List.drop_succ_cons]
    have : (ip ++ ['.']) ++ fr = ip ++ '.' :: fr := by simp
    rw [← this]
    exact List.drop_left' (by simp)
  have hlen : ('-' :: (ip ++ '.' :: fr)).length - (ip.length + 1) - 1 = fr.length := by
    simp only [List.length_cons, List.length_append]
    omega
  have hdig : ∀ c ∈ ip ++ fr, c.isDigit := by
    intro c hc
    rcases List.mem_append.1 hc with h | h
    · exact hip c h
    · exact hfr c h
  unfold xmrToAtomicUnitsStr
  rw [hidx]
  simp only [htake, hdrop, hlen, hd, List.cons_append,
    jsStringToBigInt_neg_digits (ip ++ fr) hne hdig]

/-- Negative input without a decimal point. -/
theorem xmrToAtomicUnitsStr_neg_int (ip : List Char)
    (hip : ∀ c ∈ ip, c.isDigit) (hne : ip ≠ []) :
    xmrToAtomicUnitsStr ('-' :: ip) =
      .ok (-(digitsToNat ip : Int) * AU_PER_XMR) := by
  have hidx : jsIndexOf '.' ('-' :: ip) = none := by
    unfold jsIndexOf
    rw [if_neg (by decide),
      jsIndexOf_not_mem (fun c hc => isDigit_ne_dot (hip c hc))]
    rfl
  unfold xmrToAtomicUnitsStr
  rw [hidx]
  simp only [jsStringToBigInt_neg_digits ip hne hip, Int.tdiv_one]

/-! ## Arithmetic lemmas -/

theorem AU_PER_XMR_eq : AU_PER_XMR = 10 ^ 12 := by norm_num [AU_PER_XMR]

/-- The double nearest `10^k` is exactly `10^k` for `k ≤ 22` (both `2^k`
and `5^k` then fit the 53-bit significand). -/
theorem flNat_pow10_exact (k : Nat) (hk : k ≤ 22) :
    flNat (10 ^ k) = 10 ^ k := by
  interval_cases k <;> decide

/-- For at most 22 fractional digits the divisor computed through
`Math.pow` is the exact power `10^k`. -/
theorem jsPow10_exact (k : Nat) (hk : k ≤ 22) :
    jsPow10 k = some ((10 : Int) ^ k) := by
  unfold jsPow10
  rw [if_pos (by omega), flNat_pow10_exact k hk]
  norm_num

/-- Beyond 308 fractional digits `Math.pow(10, k)` is `Infinity`. -/
theorem jsPow10_overflow (k : Nat) (hk : 308 < k) : jsPow10 k = none := by
  unfold jsPow10
  rw [if_neg (by omega)]

/-- When the number of fractional digits is at most 12, the truncating
division by `10^fracLen` is exact. -/
theorem tdiv_pow_exact (v : Int) (k : Nat) (hk : k ≤ 12) :
    Int.tdiv (v * AU_PER_XMR) (10 ^ k) = v * 10 ^ (12 - k) := by
  have h12 : AU_PER_XMR = 10 ^ (12 - k) * 10 ^ k := by
    rw [AU_PER_XMR_eq, ← pow_add]
    congr 1
    omega
  have hk0 : (10 : Int) ^ k ≠ 0 := by positivity
  rw [h12, ← mul_assoc, Int.mul_tdiv_cancel _ hk0]

/-- `atomicUnitsToXmr` computes the exact rational `a / 10^12`: the
truncating quotient and remainder recombine without loss. -/
theorem atomicUnitsToXmr_eq (a : Int) :
    atomicUnitsToXmr a = (a : ℚ) / (10 ^ 12) := by
  have hsum : AU_PER_XMR * Int.tdiv a AU_PER_XMR + Int.tmod a AU_PER_XMR = a :=
    Int.tdiv_add_tmod a AU_PER_XMR
  have hcast : (AU_PER_XMR : ℚ) * (Int.tdiv a AU_PER_XMR : ℚ) +
      (Int.tmod a AU_PER_XMR : ℚ) = (a : ℚ) := by
    exact_mod_cast congrArg (fun z : Int => (z : ℚ)) hsum
  have hM : (AU_PER_XMR : ℚ) = 10 ^ 12 := by norm_num [AU_PER_XMR]
  have hM0 : (AU_PER_XMR : ℚ) ≠ 0 := by rw [hM]; positivity
  unfold atomicUnitsToXmr
  rw [← hM]
  field_simp
  linarith [hcast]

/-- Converting back `n * 10^(12-k)` atomic units recovers the exact
rational `n / 10^k` whenever `k ≤ 12`. -/
theorem atomicUnitsToXmr_mul_pow (n : Int) (k : Nat) (hk : k ≤ 12) :
    atomicUnitsToXmr (n * 10 ^ (12 - k)) = (n : ℚ) / 10 ^ k := by
  rw [atomicUnitsToXmr_eq]
  have h : (10 : ℚ) ^ 12 = 10 ^ (12 - k) * 10 ^ k := by
    rw [← pow_add]
    congr 1
    omega
  have h2 : ((10 : ℚ) ^ k) ≠ 0 := by positivity
  push_cast
  rw [h]
  field_simp
  ring

/-- Converting back a whole multiple of `AU_PER_XMR` recovers the integer. -/
theorem atomicUnitsToXmr_mul_au (n : Int) :
    atomicUnitsToXmr (n * AU_PER_XMR) = (n : ℚ) := by
  have h := atomicUnitsToXmr_mul_pow n 0 (by omega)
  rw [Nat.sub_zero] at h
  rw [AU_PER_XMR_eq, h, pow_zero, div_one]

/-- The concatenated digit value divided by `10^fracLen` is the value of
the decimal string. -/
theorem digits_div_pow_eq_decValue (ip fr : List Char) :
    (digitsToNat (ip ++ fr) : ℚ) / 10 ^ fr.length = decValue ip fr := by
  rw [digitsToNat_append]
  unfold decValue
  have h : ((10 : ℚ) ^ fr.length) ≠ 0 := by positivity
  push_cast
  field_simp

/-! ## IEEE binary64 evaluation lemmas -/

/-- `flQ` on a positive rational presented as a reduced fraction `a / b`
is read off from `flPosParts`. -/
theorem flQ_pos_eq (a b : Nat) (ha : a ≠ 0) (hb : b ≠ 0)
    (hcop : Nat.Coprime a b) :
    flQ ((a : ℚ) / b) =
      ((flPosParts a b).1 : ℚ) * (2 : ℚ) ^ (flPosParts a b).2 := by
  have hc' : ((a : Int)).natAbs.Coprime b := by simpa using hcop
  have ha' : (0 : ℚ) < a := by exact_mod_cast Nat.pos_of_ne_zero ha
  have hb' : (0 : ℚ) < b := by exact_mod_cast Nat.pos_of_ne_zero hb
  have hx : ((a : ℚ) / b) = (⟨(a : Int), b, hb, hc'⟩ : ℚ) := by
    rw [Rat.mk'_eq_divInt, Rat.divInt_eq_div]
    push_cast
    rfl
  have hqpos : 0 < ((a : ℚ) / b) := by positivity
  have hq0 : ((a : ℚ) / b) ≠ 0 := ne_of_gt hqpos
  rw [hx] at hqpos hq0 ⊢
  unfold flQ
  rw [if_neg hq0, if_neg (not_lt.2 (le_of_lt hqpos)), one_mul]
  rfl

/-- Rounding to the nearest double commutes with negation (the IEEE
rounding is symmetric). -/
theorem flQ_neg (q : ℚ) : flQ (-q) = -flQ q := by
  by_cases h0 : q = 0
  · subst h0
    norm_num [flQ]
  · have hn0 : -q ≠ 0 := neg_ne_zero.2 h0
    unfold flQ
    rw [if_neg hn0, if_neg h0, Rat.neg_num, Rat.neg_den, Int.natAbs_neg]
    rcases lt_trichotomy q 0 with h | h | h
    · rw [if_neg (by linarith), if_pos h]
      ring
    · exact absurd h h0
    · rw [if_pos (by linarith), if_neg (by linarith)]
      ring

theorem flQ_16384 : flQ ((16384 : ℚ)) = 16384 := by
  rw [show (16384 : ℚ) = ((16384 : ℕ) : ℚ) / ((1 : ℕ) : ℚ) by norm_num,
    flQ_pos_eq 16384 1 (by decide) (by decide) (Nat.coprime_one_right 16384)]
  have hp : flPosParts 16384 1 = (4503599627370496, -(38 : Int)) := by decide
  rw [hp]
  norm_num

theorem flQ_two : flQ ((2 : ℚ)) = 2 := by
  rw [show (2 : ℚ) = ((2 : ℕ) : ℚ) / ((1 : ℕ) : ℚ) by norm_num,
    flQ_pos_eq 2 1 (by decide) (by decide) (Nat.coprime_one_right 2)]
  have hp : flPosParts 2 1 = (4503599627370496, -(51 : Int)) := by decide
  rw [hp]
  norm_num

theorem flQ_au : flQ ((1000000000000 : ℚ)) = 10 ^ 12 := by
  rw [show (1000000000000 : ℚ) = ((1000000000000 : ℕ) : ℚ) / ((1 : ℕ) : ℚ)
      by norm_num,
    flQ_pos_eq 1000000000000 1 (by decide) (by decide)
      (Nat.coprime_one_right 1000000000000)]
  have hp : flPosParts 1000000000000 1 = (8192000000000000, -(13 : Int)) := by
    decide
  rw [hp]
  norm_num

/-- The double nearest `2 * 10^-12` (the exact value of
`Number(2n) / Number(10^12n)`). -/
theorem flQ_two_div_au : flQ ((2 : ℚ) / 10 ^ 12) =
    4951760157141521 * (2 : ℚ) ^ (-(91 : Int)) := by
  rw [show (2 : ℚ) / 10 ^ 12 = ((1 : ℕ) : ℚ) / ((500000000000 : ℕ) : ℚ)
      by norm_num,
    flQ_pos_eq 1 500000000000 (by decide) (by decide)
      (Nat.coprime_one_left 500000000000)]
  have hp : flPosParts 1 500000000000 = (4951760157141521, -(91 : Int)) := by
    decide
  rw [hp]
  norm_num

/-- The double nearest `16384 + fl(2 * 10^-12)`: the fraction part rounds
up to the next representable step `2^-38` above `16384`, the source of the
`≈1.64e-12` round-trip error. -/
theorem flQ_sum_16384 :
    flQ ((16384 : ℚ) + 4951760157141521 * (2 : ℚ) ^ (-(91 : Int))) =
      4503599627370497 * (2 : ℚ) ^ (-(38 : Int)) := by
  have hco : Nat.Coprime 40564819207303345799654659713553
      2475880078570760549798248448 := by
    have h2 : (2475880078570760549798248448 : ℕ) = 2 ^ 91 := by norm_num
    rw [h2]
    refine Nat.Coprime.pow_right 91 ?_
    have hodd : ¬(2 ∣ 40564819207303345799654659713553) := by omega
    exact ((Nat.Prime.coprime_iff_not_dvd Nat.prime_two).2 hodd).symm
  rw [show (16384 : ℚ) + 4951760157141521 * (2 : ℚ) ^ (-(91 : Int)) =
      ((40564819207303345799654659713553 : ℕ) : ℚ) /
        ((2475880078570760549798248448 : ℕ) : ℚ) by norm_num,
    flQ_pos_eq _ _ (by decide) (by decide) hco]
  have hp : flPosParts 40564819207303345799654659713553
      2475880078570760549798248448 = (4503599627370497, -(38 : Int)) := by
    decide
  rw [hp]
  norm_num

/-- IEEE-double evaluation of `atomicUnitsToXmr` at
`16384000000000002` atomic units: the result is `16384 + 2^-38`, not
`16384 + 2 * 10^-12`. -/
theorem atomicUnitsToXmrFP_16384_eval :
    atomicUnitsToXmrFP 16384000000000002 =
      4503599627370497 * (2 : ℚ) ^ (-(38 : Int)) := by
  have hq : Int.tdiv 16384000000000002 AU_PER_XMR = 16384 := by decide
  have hr : Int.tmod 16384000000000002 AU_PER_XMR = 2 := by decide
  show flQ (flQ ((Int.tdiv 16384000000000002 AU_PER_XMR : Int) : ℚ) +
    flQ (flQ ((Int.tmod 16384000000000002 AU_PER_XMR : Int) : ℚ) /
      flQ ((AU_PER_XMR : Int) : ℚ))) = _
  rw [hq, hr,
    show ((16384 : Int) : ℚ) = (16384 : ℚ) by norm_num,
    show ((2 : Int) : ℚ) = (2 : ℚ) by norm_num,
    show ((AU_PER_XMR : Int) : ℚ) = (1000000000000 : ℚ) by
      norm_num [AU_PER_XMR],
    flQ_16384, flQ_two, flQ_au, flQ_two_div_au, flQ_sum_16384]

/-- IEEE-double evaluation at `-16384000000000002` atomic units: by
symmetry of the rounding, exactly the negation. -/
theorem atomicUnitsToXmrFP_neg16384_eval :
    atomicUnitsToXmrFP (-16384000000000002) =
      -(4503599627370497 * (2 : ℚ) ^ (-(38 : Int))) := by
  have hq : Int.tdiv (-16384000000000002) AU_PER_XMR = -16384 := by decide
  have hr : Int.tmod (-16384000000000002) AU_PER_XMR = -2 := by decide
  show flQ (flQ ((Int.tdiv (-16384000000000002) AU_PER_XMR : Int) : ℚ) +
    flQ (flQ ((Int.tmod (-16384000000000002) AU_PER_XMR : Int) : ℚ) /
      flQ ((AU_PER_XMR : Int) : ℚ))) = _
  rw [hq, hr,
    show ((-16384 : Int) : ℚ) = -(16384 : ℚ) by norm_num,
    show ((-2 : Int) : ℚ) = -(2 : ℚ) by norm_num,
    show ((AU_PER_XMR : Int) : ℚ) = (1000000000000 : ℚ) by
      norm_num [AU_PER_XMR],
    flQ_neg, flQ_neg, flQ_16384, flQ_two, flQ_au, neg_div, flQ_neg,
    flQ_two_div_au,
    show -(16384 : ℚ) + -(4951760157141521 * (2 : ℚ) ^ (-(91 : Int))) =
      -((16384 : ℚ) + 4951760157141521 * (2 : ℚ) ^ (-(91 : Int))) by ring,
    flQ_neg, flQ_sum_16384]

theorem decValue_16384_eval :
    decValue "16384".toList "000000000002".toList = 16384 + 2 / 10 ^ 12 := by
  have h1 : digitsToNat "16384".toList = 16384 := by decide
  have h2 : digitsToNat "000000000002".toList = 2 := by decide
  have h3 : ("000000000002".toList).length = 12 := by decide
  unfold decValue
  rw [h1, h2, h3]
  norm_num

/-! ## Claims -/

/-- Claim C1 as amended: for every non-negative decimal amount `d` (given
as a string, with or without a decimal point) with at most 12 fractional
digits, the conversion to atomic units is lossless and the exact-arithmetic
reading of the conversion back (truncating quotient plus remainder over
`10^12`, without IEEE rounding) recovers `d` exactly; the IEEE-double
evaluation of the same expression can exceed the claimed absolute `1e-12`
tolerance (see the counterexample at `d = 16384.000000000002`). -/
theorem xmr_atomic_roundtrip_nonneg (ip fr : List Char)
    (hip : ∀ c ∈ ip, c.isDigit) (hfr : ∀ c ∈ fr, c.isDigit)
    (hlen : fr.length ≤ 12) (hne : ip ++ fr ≠ []) :
    (∃ au : Int, xmrToAtomicUnits (.str (ip ++ '.' :: fr)) = .ok au ∧
      atomicUnitsToXmr au = decValue ip fr) ∧
    (ip ≠ [] → ∃ au : Int, xmrToAtomicUnits (.str ip) = .ok au ∧
      atomicUnitsToXmr au = (digitsToNat ip : ℚ)) := by
  constructor
  · refine ⟨(digitsToNat (ip ++ fr) : Int) * 10 ^ (12 - fr.length), ?_, ?_⟩
    · show xmrToAtomicUnitsStr (ip ++ '.' :: fr) = _
      rw [xmrToAtomicUnitsStr_dot ip fr (10 ^ fr.length) hip hfr hne
          (jsPow10_exact fr.length (by omega)),
        tdiv_pow_exact _ _ hlen]
    · rw [atomicUnitsToXmr_mul_pow _ _ hlen]
      push_cast
      rw [digits_div_pow_eq_decValue ip fr]
  · intro hipne
    refine ⟨(digitsToNat ip : Int) * AU_PER_XMR, ?_, ?_⟩
    · show xmrToAtomicUnitsStr ip = _
      exact xmrToAtomicUnitsStr_int ip hip hipne
    · rw [atomicUnitsToXmr_mul_au]
      push_cast
      ring

theorem xmr_atomic_roundtrip_nonneg_witness :
    (∀ c ∈ ['1'], Char.isDigit c) ∧ (∀ c ∈ ['5'], Char.isDigit c) ∧
    (['5'] : List Char).length ≤ 12 ∧ (['1'] ++ ['5'] : List Char) ≠ [] ∧
    (∃ au : Int, xmrToAtomicUnits (.str (['1'] ++ '.' :: ['5'])) = .ok au ∧
      atomicUnitsToXmr au = decValue ['1'] ['5']) :=
  ⟨by decide, by decide, by decide, by decide,
    (xmr_atomic_roundtrip_nonneg ['1'] ['5'] (by decide) (by decide)
      (by decide) (by decide)).1⟩

/-- Claim C1, counterexample: the round trip of the 12-fractional-digit
amount `16384.000000000002` misses by about `1.638e-12 > 1e-12` under the
program's IEEE-double arithmetic — the claimed absolute `1e-12` tolerance
does not hold of the program. -/
theorem xmr_atomic_roundtrip_counterexample :
    xmrToAtomicUnits (.str "16384.000000000002".toList) =
      .ok 16384000000000002 ∧
    1 / 10 ^ 12 <
      |atomicUnitsToXmrFP 16384000000000002 -
        decValue "16384".toList "000000000002".toList| := by
  constructor
  · rfl
  · rw [atomicUnitsToXmrFP_16384_eval, decValue_16384_eval]
    rw [abs_of_pos (by norm_num)]
    norm_num

/-- Claim C2: for every decimal string with at most 12 fractional digits
the division by `10^fracLen` is exact — the result is exactly the denoted
value times `10^12` — and in particular `xmrToAtomicUnits "1" = 10^12`,
`xmrToAtomicUnits "1.5" = 1.5 * 10^12`, and
`xmrToAtomicUnits "0.000000000001" = 1`. -/
theorem xmrToAtomicUnits_exact (ip fr : List Char)
    (hip : ∀ c ∈ ip, c.isDigit) (hfr : ∀ c ∈ fr, c.isDigit)
    (hlen : fr.length ≤ 12) (hne : ip ++ fr ≠ []) :
    (xmrToAtomicUnits (.str (ip ++ '.' :: fr)) =
        .ok ((digitsToNat (ip ++ fr) : Int) * 10 ^ (12 - fr.length)) ∧
      (digitsToNat (ip ++ fr) : ℚ) * 10 ^ (12 - fr.length) =
        decValue ip fr * 10 ^ 12) ∧
    xmrToAtomicUnits (.str "1".toList) = .ok 1000000000000 ∧
    xmrToAtomicUnits (.str "1.5".toList) = .ok 1500000000000 ∧
    xmrToAtomicUnits (.str "0.000000000001".toList) = .ok 1 := by
  refine ⟨⟨?_, ?_⟩, rfl, rfl, rfl⟩
  · show xmrToAtomicUnitsStr (ip ++ '.' :: fr) = _
    rw [xmrToAtomicUnitsStr_dot ip fr (10 ^ fr.length) hip hfr hne
        (jsPow10_exact fr.length (by omega)),
      tdiv_pow_exact _ _ hlen]
  · have hk : (10 : ℚ) ^ 12 = 10 ^ (12 - fr.length) * 10 ^ fr.length := by
      rw [← pow_add]
      congr 1
      omega
    have h2 : ((10 : ℚ) ^ fr.length) ≠ 0 := by positivity
    rw [← digits_div_pow_eq_decValue ip fr, hk]
    field_simp
    ring

theorem xmrToAtomicUnits_exact_witness :
    (∀ c ∈ ['2'], Char.isDigit c) ∧ (∀ c ∈ ['2', '5'], Char.isDigit c) ∧
    (['2', '5'] : List Char).length ≤ 12 ∧
    (['2'] ++ ['2', '5'] : List Char) ≠ [] ∧
    xmrToAtomicUnits (.str (['2'] ++ '.' :: ['2', '5'])) =
      .ok ((digitsToNat (['2'] ++ ['2', '5']) : Int) *
        10 ^ (12 - (['2', '5'] : List Char).length)) :=
  ⟨by decide, by decide, by decide, by decide,
    (xmrToAtomicUnits_exact ['2'] ['2', '5'] (by decide) (by decide)
      (by decide) (by decide)).1.1⟩

/-- Claim C3: `atomicUnitsToXmr a` is the truncating quotient
`a div 10^12` plus the remainder `a mod 10^12` divided by `10^12`; in
particular `atomicUnitsToXmr 1000000000000 = 1` and
`atomicUnitsToXmr 1500000000000 = 1.5`. -/
theorem atomicUnitsToXmr_alg :
    (∀ a : Int, atomicUnitsToXmr a =
      (Int.tdiv a (10 ^ 12) : ℚ) + (Int.tmod a (10 ^ 12) : ℚ) / 10 ^ 12) ∧
    atomicUnitsToXmr 1000000000000 = 1 ∧
    atomicUnitsToXmr 1500000000000 = 3 / 2 := by
  refine ⟨fun a => ?_, ?_, ?_⟩
  · show (Int.tdiv a AU_PER_XMR : ℚ) + (Int.tmod a AU_PER_XMR : ℚ) /
      (AU_PER_XMR : ℚ) = _
    norm_num [AU_PER_XMR]
  · rw [atomicUnitsToXmr_eq]
    norm_num
  · rw [atomicUnitsToXmr_eq]
    norm_num

theorem atomicUnitsToXmr_alg_witness :
    atomicUnitsToXmr 7 =
      (Int.tdiv 7 (10 ^ 12) : ℚ) + (Int.tmod 7 (10 ^ 12) : ℚ) / 10 ^ 12 :=
  atomicUnitsToXmr_alg.1 7

/-- Claim C4 (spec-modelled): `centinerosToAtomicUnits` is a pure scalar
multiply: for every integer `c ≥ 0`, the result is `c * 10000`. -/
theorem centinerosToAtomicUnits_scale (c : Int) (_hc : 0 ≤ c) :
    centinerosToAtomicUnits c = c * 10000 := rfl

theorem centinerosToAtomicUnits_scale_witness :
    (0 : Int) ≤ 7 ∧ centinerosToAtomicUnits 7 = 7 * 10000 :=
  ⟨by decide, centinerosToAtomicUnits_scale 7 (by decide)⟩

/-- Claim C5, counterexample: on the empty string `xmrToAtomicUnits` does
NOT fail — JS `BigInt("")` evaluates to `0n`, so the function returns `0`
rather than throwing an `InvalidAmountFormat` error. -/
theorem xmr_empty_string_counterexample :
    xmrToAtomicUnits (.str "".toList) = .ok 0 ∧
    xmrToAtomicUnits (.str "".toList) ≠ .error .invalidAmountFormat :=
  ⟨rfl, by
    intro h
    rw [show xmrToAtomicUnits (.str "".toList) = .ok 0 from rfl] at h
    exact Except.noConfusion h⟩

/-- Claim C5 as amended: calling `xmrToAtomicUnits` with the empty string
returns `0` (it does not fail: `BigInt("")` is `0n` and the divisor is
`1`). -/
theorem xmr_empty_string_returns_zero :
    xmrToAtomicUnits (.str "".toList) = .ok 0 := rfl

/-- Claim C6: `divideBI a b` computes `(a * 100) div b` with truncating
integer division and divides the integer result by `100`; it fails with
`DivisionByZero` exactly when `b = 0`; `divideBI 1 3 = 0.33`,
`divideBI 2 4 = 0.5`, and `divideBI 5 0` fails. -/
theorem divideBI_spec :
    (∀ a b : Int, b ≠ 0 →
      divideBI a b = .ok ((Int.tdiv (a * 100) b : ℚ) / 100)) ∧
    (∀ a b : Int, divideBI a b = .error .divisionByZero ↔ b = 0) ∧
    divideBI 1 3 = .ok (33 / 100) ∧
    divideBI 2 4 = .ok (1 / 2) ∧
    divideBI 5 0 = .error .divisionByZero := by
  refine ⟨fun a b hb => ?_, fun a b => ⟨?_, ?_⟩, rfl, ?_, rfl⟩
  · unfold divideBI
    rw [if_neg hb]
  · intro h
    by_contra hb
    unfold divideBI at h
    rw [if_neg hb] at h
    exact Except.noConfusion h
  · intro hb
    subst hb
    rfl
  · have h : Int.tdiv (2 * 100) 4 = 50 := by decide
    unfold divideBI
    rw [if_neg (by decide), h]
    norm_num

theorem divideBI_spec_witness :
    ((3 : Int) ≠ 0) ∧ divideBI 1 3 = .ok ((Int.tdiv (1 * 100) 3 : ℚ) / 100) :=
  ⟨by decide, divideBI_spec.1 1 3 (by decide)⟩

/-- Claim C7: for every runtime value that is neither a string nor a
number (including `null` and a plain object), `xmrToAtomicUnits` fails with
`InvalidAmountFormat`. -/
theorem xmr_rejects_nonstring_nonnumber :
    (∀ v : JSValue, isStringOrNumber v = false →
      xmrToAtomicUnits v = .error .invalidAmountFormat) ∧
    xmrToAtomicUnits .nullV = .error .invalidAmountFormat ∧
    xmrToAtomicUnits .obj = .error .invalidAmountFormat := by
  refine ⟨fun v hv => ?_, rfl, rfl⟩
  cases v with
  | str s => exact absurd hv (by simp [isStringOrNumber])
  | num s => exact absurd hv (by simp [isStringOrNumber])
  | nullV => rfl
  | undefinedV => rfl
  | boolV b => rfl
  | obj => rfl
  | bigintV w => rfl

theorem xmr_rejects_nonstring_nonnumber_witness :
    isStringOrNumber JSValue.nullV = false ∧
    xmrToAtomicUnits JSValue.nullV = .error .invalidAmountFormat :=
  ⟨rfl, xmr_rejects_nonstring_nonnumber.1 JSValue.nullV rfl⟩

/-- Claim C8 as amended: `xmrToAtomicUnits "-2.5" = -2500000000000`
exactly, and for every negative decimal string with at most 12 fractional
digits (with or without a decimal point) the conversion is lossless and
the exact-arithmetic reading of the conversion back recovers the value
exactly; the IEEE-double evaluation can exceed the claimed absolute
`1e-12` tolerance (see the counterexample at `d = -16384.000000000002`). -/
theorem xmr_negative_roundtrip (ip fr : List Char)
    (hip : ∀ c ∈ ip, c.isDigit) (hfr : ∀ c ∈ fr, c.isDigit)
    (hlen : fr.length ≤ 12) (hne : ip ++ fr ≠ []) :
    xmrToAtomicUnits (.str "-2.5".toList) = .ok (-2500000000000) ∧
    (∃ au : Int, xmrToAtomicUnits (.str ('-' :: (ip ++ '.' :: fr))) = .ok au ∧
      atomicUnitsToXmr au = -(decValue ip fr)) ∧
    (ip ≠ [] → ∃ au : Int, xmrToAtomicUnits (.str ('-' :: ip)) = .ok au ∧
      atomicUnitsToXmr au = -((digitsToNat ip : ℚ))) := by
  refine ⟨rfl, ?_, ?_⟩
  · refine ⟨-(digitsToNat (ip ++ fr) : Int) * 10 ^ (12 - fr.length), ?_, ?_⟩
    · show xmrToAtomicUnitsStr ('-' :: (ip ++ '.' :: fr)) = _
      rw [xmrToAtomicUnitsStr_neg_dot ip fr (10 ^ fr.length) hip hfr hne
          (jsPow10_exact fr.length (by omega)),
        tdiv_pow_exact _ _ hlen]
    · rw [atomicUnitsToXmr_mul_pow _ _ hlen]
      push_cast
      rw [neg_div, digits_div_pow_eq_decValue ip fr]
  · intro hipne
    refine ⟨-(digitsToNat ip : Int) * AU_PER_XMR, ?_, ?_⟩
    · show xmrToAtomicUnitsStr ('-' :: ip) = _
      exact xmrToAtomicUnitsStr_neg_int ip hip hipne
    · rw [atomicUnitsToXmr_mul_au]
      push_cast
      ring

theorem xmr_negative_roundtrip_witness :
    (∀ c ∈ ['2'], Char.isDigit c) ∧ (∀ c ∈ ['5'], Char.isDigit c) ∧
    (['5'] : List Char).length ≤ 12 ∧ (['2'] ++ ['5'] : List Char) ≠ [] ∧
    (∃ au : Int, xmrToAtomicUnits (.str ('-' :: (['2'] ++ '.' :: ['5']))) = .ok au ∧
      atomicUnitsToXmr au = -(decValue ['2'] ['5'])) :=
  ⟨by decide, by decide, by decide, by decide,
    (xmr_negative_roundtrip ['2'] ['5'] (by decide) (by decide)
      (by decide) (by decide)).2.1⟩

/-- Claim C8, counterexample: the round trip of the negative
12-fractional-digit amount `-16384.000000000002` misses by about
`1.638e-12 > 1e-12` under the program's IEEE-double arithmetic, so the
claimed universal `1e-12` round-trip tolerance for negative amounts does
not hold of the program. -/
theorem xmr_negative_roundtrip_counterexample :
    xmrToAtomicUnits (.str "-16384.000000000002".toList) =
      .ok (-16384000000000002) ∧
    1 / 10 ^ 12 <
      |atomicUnitsToXmrFP (-16384000000000002) -
        (-(decValue "16384".toList "000000000002".toList))| := by
  constructor
  · rfl
  · rw [atomicUnitsToXmrFP_neg16384_eval, decValue_16384_eval,
      show -(4503599627370497 * (2 : ℚ) ^ (-(38 : Int))) -
          -(16384 + 2 / 10 ^ 12) =
        -((4503599627370497 * (2 : ℚ) ^ (-(38 : Int))) -
          (16384 + 2 / 10 ^ 12)) by ring,
      abs_neg, abs_of_pos (by norm_num)]
    norm_num

/-- Claim C9 as amended: on a decimal string with more than 12 and at most
22 fractional digits, `xmrToAtomicUnits` does not fail and returns the
truncating integer division of (digit string as integer) times `10^12` by
`10^fracLen`, silently dropping precision beyond atomic-unit resolution;
with 23 to 308 fractional digits the divisor is instead the IEEE double
nearest `10^fracLen` (no double equals `10^23` and beyond); with 309 or
more fractional digits the conversion fails — `Math.pow(10, fracLen)` is
`Infinity` and `BigInt(Infinity)` throws a `RangeError`. -/
theorem xmrToAtomicUnits_truncates (ip fr : List Char)
    (hip : ∀ c ∈ ip, c.isDigit) (hfr : ∀ c ∈ fr, c.isDigit)
    (_hlen : 12 < fr.length) (hne : ip ++ fr ≠ []) :
    (fr.length ≤ 22 →
      xmrToAtomicUnits (.str (ip ++ '.' :: fr)) =
        .ok (Int.tdiv ((digitsToNat (ip ++ fr) : Int) * 10 ^ 12)
          (10 ^ fr.length))) ∧
    (fr.length ≤ 308 →
      xmrToAtomicUnits (.str (ip ++ '.' :: fr)) =
        .ok (Int.tdiv ((digitsToNat (ip ++ fr) : Int) * 10 ^ 12)
          ((flNat (10 ^ fr.length) : Int)))) ∧
    (308 < fr.length →
      xmrToAtomicUnits (.str (ip ++ '.' :: fr)) = .error .rangeError) := by
  refine ⟨fun h22 => ?_, fun h308 => ?_, fun hbig => ?_⟩
  · show xmrToAtomicUnitsStr (ip ++ '.' :: fr) = _
    rw [xmrToAtomicUnitsStr_dot ip fr (10 ^ fr.length) hip hfr hne
        (jsPow10_exact fr.length h22),
      AU_PER_XMR_eq]
  · show xmrToAtomicUnitsStr (ip ++ '.' :: fr) = _
    rw [xmrToAtomicUnitsStr_dot ip fr ((flNat (10 ^ fr.length) : Int)) hip hfr
        hne (by unfold jsPow10; rw [if_pos h308]),
      AU_PER_XMR_eq]
  · show xmrToAtomicUnitsStr (ip ++ '.' :: fr) = _
    exact xmrToAtomicUnitsStr_dot_overflow ip fr hip hfr hne
      (jsPow10_overflow fr.length hbig)

theorem xmrToAtomicUnits_truncates_witness :
    (∀ c ∈ ['1'], Char.isDigit c) ∧
    (∀ c ∈ ['0', '0', '0', '0', '0', '0', '0', '0', '0', '0', '0', '0', '5'],
      Char.isDigit c) ∧
    12 < (['0', '0', '0', '0', '0', '0', '0', '0', '0', '0', '0', '0', '5'] :
      List Char).length ∧
    (['1'] ++ ['0', '0', '0', '0', '0', '0', '0', '0', '0', '0', '0', '0', '5'] :
      List Char) ≠ [] ∧
    (['0', '0', '0', '0', '0', '0', '0', '0', '0', '0', '0', '0', '5'] :
      List Char).length ≤ 22 ∧
    xmrToAtomicUnits (.str (['1'] ++ '.' ::
        ['0', '0', '0', '0', '0', '0', '0', '0', '0', '0', '0', '0', '5'])) =
      .ok (Int.tdiv ((digitsToNat (['1'] ++
        ['0', '0', '0', '0', '0', '0', '0', '0', '0', '0', '0', '0', '5']) : Int) *
        10 ^ 12)
        (10 ^ (['0', '0', '0', '0', '0', '0', '0', '0', '0', '0', '0', '0', '5'] :
          List Char).length)) :=
  ⟨by decide, by decide, by decide, by decide, by decide,
    (xmrToAtomicUnits_truncates ['1']
      ['0', '0', '0', '0', '0', '0', '0', '0', '0', '0', '0', '0', '5']
      (by decide) (by decide) (by decide) (by decide)).1 (by decide)⟩

set_option maxRecDepth 8000 in
/-- Claim C9, counterexample: with 23 fractional digits the program's
divisor is `BigInt(Math.pow(10, 23)) = 99999999999999991611392n`, not
`10^23`: on `"0.99999999999999991611392"` the program returns
`1000000000000` where the claimed exact-`10^fracLen` truncation formula
gives `999999999999`; and with 309 fractional digits the conversion does
fail (`RangeError`), against the claim's "does not fail". -/
theorem xmrToAtomicUnits_truncates_counterexample :
    xmrToAtomicUnits (.str "0.99999999999999991611392".toList) =
      .ok 1000000000000 ∧
    Int.tdiv ((digitsToNat ("0".toList ++
        "99999999999999991611392".toList) : Int) * 10 ^ 12)
      (10 ^ ("99999999999999991611392".toList.length)) = 999999999999 ∧
    (1000000000000 : Int) ≠ 999999999999 ∧
    xmrToAtomicUnits (.str ('0' :: '.' ::
        (List.replicate 308 '0' ++ ['1']))) = .error .rangeError := by
  refine ⟨rfl, by decide, by decide, rfl⟩

/-- Claim C10: `atomicUnitsToXmr` is odd: negation commutes with the
conversion, and `atomicUnitsToXmr 0 = 0`. -/
theorem atomicUnitsToXmr_odd :
    (∀ a : Int, atomicUnitsToXmr (-a) = -(atomicUnitsToXmr a)) ∧
    atomicUnitsToXmr 0 = 0 := by
  refine ⟨fun a => ?_, ?_⟩
  · rw [atomicUnitsToXmr_eq, atomicUnitsToXmr_eq]
    push_cast
    ring
  · rw [atomicUnitsToXmr_eq]
    norm_num

theorem atomicUnitsToXmr_odd_witness :
    atomicUnitsToXmr (-(7 : Int)) = -(atomicUnitsToXmr 7) :=
  atomicUnitsToXmr_odd.1 7

end HavenoUtils
